import Mathlib

/-!
Verification development for the strava-exporter repository.

This file gives a shallow embedding of the cache-merge engine
(src/strava_exporter/cache.py) and of the statistics engine
(src/strava_exporter/markdown_exporter.py), and proves the frozen claims
about them.  Python float arithmetic is idealised as exact rational
arithmetic; the float value inf used as a sentinel is modelled either by
an explicit constructor (PaceVal.inf) or by Option (none standing for
the infinite initial record value).  Python dictionaries keyed by
activity id are modelled as association lists with in-place replacement,
which reproduces the insertion-order semantics of dict.
-/

namespace Strava

/-- Value of the id field of an activity dictionary: absent (None), an
integer, or a string.  Python truthiness of this value drives the merge
filter in merge_activities. -/
inductive IdVal where
  | none
  | int (n : Int)
  | str (s : String)
deriving DecidableEq

/-- Python truthiness of an id value: None, 0 and the empty string are
falsy, everything else is truthy. -/
def IdVal.truthy : IdVal → Bool
  | IdVal.none => false
  | IdVal.int n => n != 0
  | IdVal.str s => s != ""

/-- Activity record, with the fields read by cache.py and
markdown_exporter.py.  Numeric fields are read in Python with
<code>.get(key, 0)</code>, so a missing field is identified with 0 and the
field is total here; start_date is read with default "", so a missing
start date is identified with "".  sport_type and type keep their
absent/present distinction because calculate_records falls back from
sport_type to type to "Outro". -/
structure Activity where
  id : IdVal
  name : String
  start_date : String
  sport_type : Option String
  type : Option String
  distance : ℚ
  moving_time : ℚ
  total_elevation_gain : ℚ
  max_speed : ℚ
  max_heartrate : ℚ
  average_watts : ℚ
  max_watts : ℚ
deriving DecidableEq

/-- Python dict insertion on an association list keyed by IdVal: replace
the first binding of the key in place, otherwise append at the end.
This is exactly the insertion-order behaviour of a Python dict. -/
def dictInsert : List (IdVal × Activity) → IdVal → Activity → List (IdVal × Activity)
  | [], k, v => [(k, v)]
  | p :: ps, k, v => if p.1 = k then (k, v) :: ps else p :: dictInsert ps k v

/-- One pass of merge_activities over a list of activities: each
activity with a truthy id is inserted into the dict under its id, later
entries overwriting earlier ones (cache.py lines 97 to 107). -/
def addActivities (d : List (IdVal × Activity)) (l : List Activity) : List (IdVal × Activity) :=
  l.foldl (fun d a => if a.id.truthy then dictInsert d a.id a else d) d

/-- Lexicographic comparison of character lists, the Python string
order restricted to equal-width code points. -/
def leChars : List Char → List Char → Bool
  | [], _ => true
  | _ :: _, [] => false
  | c :: cs, d :: ds => if c < d then true else if d < c then false else leChars cs ds

/-- Python string comparison, used for start_date keys: ISO-8601
timestamps rendered in one uniform UTC format compare as strings
exactly as they compare as instants. -/
def pyStrLe (s t : String) : Bool := leChars s.data t.data

/-- Stable descending insertion by the start_date string, modelling the
stable Python sort with key start_date and reverse set (cache.py line
111). -/
def insertDesc (a : Activity) : List Activity → List Activity
  | [] => [a]
  | b :: bs => if pyStrLe b.start_date a.start_date then a :: b :: bs else b :: insertDesc a bs

/-- Insertion sort by start_date descending, see insertDesc. -/
def sortDesc : List Activity → List Activity
  | [] => []
  | a :: l => insertDesc a (sortDesc l)

/-- Embedding of merge_activities (cache.py lines 82 to 113): build a
dict from the cached list, overwrite with the new list, take the values
and sort them by start_date descending. -/
def merge_activities (cached new : List Activity) : List Activity :=
  sortDesc ((addActivities (addActivities [] cached) new).map Prod.snd)

/-- Embedding of get_new_activities_count (cache.py lines 116 to 127). -/
def get_new_activities_count (cached merged : List Activity) : Int :=
  (merged.length : Int) - (cached.length : Int)

/-- Result of calculate_pace_seconds: the Python function returns the
float inf when the distance is zero, and a finite pace otherwise. -/
inductive PaceVal where
  | inf
  | finite (q : ℚ)
deriving DecidableEq

/-- Embedding of calculate_pace_seconds (markdown_exporter.py lines 38
to 43). -/
def calculate_pace_seconds (meters : ℚ) (seconds : ℚ) : PaceVal :=
  if meters = 0 then PaceVal.inf else PaceVal.finite (seconds / (meters / 1000))

/-- Python int() on a rational: truncation toward zero. -/
def pyTruncQ (q : ℚ) : Int := if 0 ≤ q then ⌊q⌋ else -⌊-q⌋

/-- Python format 02d: zero-pad a small non-negative integer to two
digits. -/
def pad2 (n : Int) : String := if 0 ≤ n ∧ n < 10 then "0" ++ toString n else toString n

/-- Embedding of format_pace (markdown_exporter.py lines 25 to 35).
Floor division and float modulo are the rational floor and remainder. -/
def format_pace (meters : ℚ) (seconds : ℚ) : String :=
  if meters = 0 then "N/A"
  else
    let pace_seconds := seconds / (meters / 1000)
    let pace_minutes : Int := ⌊pace_seconds / 60⌋
    let pace_secs : Int := pyTruncQ (pace_seconds - 60 * (⌊pace_seconds / 60⌋ : ℚ))
    toString pace_minutes ++ ":" ++ pad2 pace_secs ++ " /km"

/-- Cache document shape produced by load_cache on the failure paths
(cache.py lines 22 to 25 and 32 to 35). -/
structure CacheDoc where
  last_update : Option String
  activities : List Activity
deriving DecidableEq

/-- Empty default cache document: last_update None and no activities. -/
def emptyCacheDoc : CacheDoc := { last_update := Option.none, activities := [] }

/-- Embedding of load_cache (cache.py lines 12 to 35).  File-system
reading and JSON parsing are abstracted: fileContents is none when the
cache file does not exist, and parseJson is the parser, whose error
result models a raised parse exception caught by the except branch. -/
def load_cache (fileContents : Option String)
    (parseJson : String → Except String CacheDoc) : CacheDoc :=
  match fileContents with
  | Option.none => emptyCacheDoc
  | Option.some s =>
    match parseJson s with
    | Except.error _ => emptyCacheDoc
    | Except.ok d => d

/-- Sport type of an activity as read by calculate_records
(markdown_exporter.py line 202): sport_type, else type, else "Outro". -/
def sportOf (a : Activity) : String := a.sport_type.getD (a.type.getD "Outro")

/-- Target distances per sport (markdown_exporter.py lines 195 to 199). -/
def distance_targets : String → List ℚ
  | "Ride" => [1000, 5000, 10000, 20000]
  | "Run" => [1000, 5000, 10000]
  | "Walk" => [1000, 3000, 5000]
  | _ => []

/-- Maximal plausible pace per sport in seconds per km, with the dict
default 1800 (markdown_exporter.py lines 231 to 241). -/
def max_pace_limit : String → ℚ
  | "Ride" => 900
  | "Run" => 1200
  | "Walk" => 1200
  | _ => 1800

/-- Minimal plausible time per target distance in seconds, with the dict
default 0 (markdown_exporter.py lines 298 to 304). -/
def min_times (t : ℚ) : ℚ :=
  if t = 1000 then 120
  else if t = 3000 then 420
  else if t = 5000 then 720
  else if t = 10000 then 1500
  else if t = 20000 then 3000
  else 0

/-- Pace-sanity gate of calculate_records (markdown_exporter.py lines
237 to 243): when distance and moving time are both positive the pace
must not exceed the sport limit, otherwise the activity counts as
valid. -/
def isValidPace (s : String) (a : Activity) : Bool :=
  if 0 < a.distance ∧ 0 < a.moving_time then
    match calculate_pace_seconds a.distance a.moving_time with
    | PaceVal.inf => false
    | PaceVal.finite p => decide (p ≤ max_pace_limit s)
  else true

/-- Record entry tracking a running maximum: the value starts at 0 and
the achieving activity starts at None. -/
structure RecMax where
  value : ℚ
  activity : Option Activity
deriving DecidableEq

/-- Record entry tracking a running minimum: the value starts at the
float inf, modelled as none. -/
structure RecMin where
  value : Option ℚ
  activity : Option Activity
deriving DecidableEq

/-- Comparison of a candidate against a running-minimum value, where
none models the float inf initial value: every rational is below inf. -/
def ltMinQ (p : ℚ) : Option ℚ → Bool
  | Option.none => true
  | Option.some q => decide (p < q)

/-- Per-sport record set of calculate_records.  best_time t is the
record for target distance t; targets outside distance_targets are
never updated. -/
structure SportRecords where
  max_distance : RecMax
  max_time : RecMax
  max_elevation : RecMax
  best_pace : RecMin
  max_speed : RecMax
  max_heartrate : RecMax
  max_avg_watts : RecMax
  max_watts : RecMax
  best_time : ℚ → RecMin

/-- Initial record set (markdown_exporter.py lines 212 to 226). -/
def initRecords : SportRecords where
  max_distance := ⟨0, Option.none⟩
  max_time := ⟨0, Option.none⟩
  max_elevation := ⟨0, Option.none⟩
  best_pace := ⟨Option.none, Option.none⟩
  max_speed := ⟨0, Option.none⟩
  max_heartrate := ⟨0, Option.none⟩
  max_avg_watts := ⟨0, Option.none⟩
  max_watts := ⟨0, Option.none⟩
  best_time := fun _ => ⟨Option.none, Option.none⟩

/-- One activity step of calculate_records (markdown_exporter.py lines
228 to 309).  The source updates the fields one after the other, but
each update reads only the field it writes, and the inner loop over
target distances touches each duplicate-free target at most once, so
the sequential updates are equal to this simultaneous record update.
best_pace is only updated when distance is positive, in which case
calculate_pace_seconds returns the finite pace moving_time divided by
distance over 1000, written out here. -/
def recordStep (s : String) (r : SportRecords) (a : Activity) : SportRecords :=
  let valid := isValidPace s a
  let pace := a.moving_time / (a.distance / 1000)
  { max_distance :=
      if valid = true ∧ r.max_distance.value < a.distance then
        ⟨a.distance, Option.some a⟩ else r.max_distance
    max_time :=
      if valid = true ∧ r.max_time.value < a.moving_time then
        ⟨a.moving_time, Option.some a⟩ else r.max_time
    max_elevation :=
      if valid = true ∧ r.max_elevation.value < a.total_elevation_gain then
        ⟨a.total_elevation_gain, Option.some a⟩ else r.max_elevation
    best_pace :=
      if valid = true ∧ 0 < a.distance ∧ ltMinQ pace r.best_pace.value = true then
        ⟨Option.some pace, Option.some a⟩ else r.best_pace
    max_speed :=
      if r.max_speed.value < a.max_speed then ⟨a.max_speed, Option.some a⟩ else r.max_speed
    max_heartrate :=
      if r.max_heartrate.value < a.max_heartrate then
        ⟨a.max_heartrate, Option.some a⟩ else r.max_heartrate
    max_avg_watts :=
      if a.average_watts ≠ 0 ∧ r.max_avg_watts.value < a.average_watts then
        ⟨a.average_watts, Option.some a⟩ else r.max_avg_watts
    max_watts :=
      if a.max_watts ≠ 0 ∧ r.max_watts.value < a.max_watts then
        ⟨a.max_watts, Option.some a⟩ else r.max_watts
    best_time := fun t =>
      let est := (t / a.distance) * a.moving_time
      if valid = true ∧ t ∈ distance_targets s ∧ 0 < a.distance ∧ 0 < a.moving_time ∧
          t ≤ a.distance ∧ min_times t ≤ est ∧ ltMinQ est (r.best_time t).value = true then
        ⟨Option.some est, Option.some a⟩
      else r.best_time t }

/-- Record set for one sport: calculate_records keeps one record set
per sport key, and each activity only updates the set of its own sport,
so the set for sport s equals this fold over the activities of sport s,
in input order. -/
def recordsFold (acts : List Activity) (s : String) : SportRecords :=
  (acts.filter (fun a => decide (sportOf a = s))).foldl (recordStep s) initRecords

/-- Embedding of calculate_records (markdown_exporter.py lines 182 to
311) at one sport key: the returned dict has a key for sport s exactly
when some activity has sport s, and its record set is recordsFold. -/
def calculate_records (acts : List Activity) (s : String) : Option SportRecords :=
  if acts.any (fun a => decide (sportOf a = s)) then Option.some (recordsFold acts s)
  else Option.none

/-- Sport factors of calculate_relative_effort (markdown_exporter.py
lines 128 to 136), with the dict default 1. -/
def activity_factor : String → ℚ
  | "Run" => 1.2
  | "Ride" => 1
  | "Walk" => 0.8
  | "Workout" => 1.1
  | "Yoga" => 0.6
  | _ => 1

/-- Python truthiness of an optional number: None and 0 are falsy. -/
def qTruthy : Option ℚ → Bool
  | Option.none => false
  | Option.some q => q != 0

/-- Reference maximum heart rate of calculate_relative_effort
(markdown_exporter.py lines 113 to 122): the user value when truthy and
positive, else the activity maximum when truthy and above the average,
else 185. -/
def estimated_max_hr (average_heartrate : ℚ) (max_heartrate user_max_hr : Option ℚ) : ℚ :=
  if qTruthy user_max_hr = true ∧ 0 < user_max_hr.getD 0 then user_max_hr.getD 0
  else if qTruthy max_heartrate = true ∧ average_heartrate < max_heartrate.getD 0 then
    max_heartrate.getD 0
  else 185

/-- Python int() on a real number: truncation toward zero. -/
noncomputable def pyTruncR (x : ℝ) : Int := if 0 ≤ x then ⌊x⌋ else -⌊-x⌋

/-- Embedding of calculate_relative_effort (markdown_exporter.py lines
84 to 151).  Python float arithmetic is idealised as real arithmetic;
the float power intensity ** 1.5 is the real power with exponent three
halves. -/
noncomputable def calculate_relative_effort (moving_time average_heartrate : ℚ)
    (max_heartrate : Option ℚ) (sport_type : String) (user_max_hr : Option ℚ) : Int :=
  if average_heartrate = 0 ∨ moving_time = 0 then 0
  else
    let emax := estimated_max_hr average_heartrate max_heartrate user_max_hr
    let intensity : ℝ := min ((average_heartrate : ℝ) / (emax : ℝ)) 1
    let exp_factor : ℝ := 1 + intensity ^ ((3 : ℝ) / 2)
    let effort : ℝ :=
      ((moving_time : ℝ) / 60) * intensity * exp_factor * ((activity_factor sport_type : ℚ) : ℝ)
    pyTruncR (effort * (5 / 2))

/-- Stable descending insertion of a rational, for the sorts of the
heart-rate detection. -/
def insertQDesc (x : ℚ) : List ℚ → List ℚ
  | [] => [x]
  | y :: ys => if y ≤ x then x :: y :: ys else y :: insertQDesc x ys

/-- Insertion sort descending on rationals. -/
def sortQDesc : List ℚ → List ℚ
  | [] => []
  | x :: l => insertQDesc x (sortQDesc l)

/-- Stable ascending insertion of a rational. -/
def insertQAsc (x : ℚ) : List ℚ → List ℚ
  | [] => [x]
  | y :: ys => if x ≤ y then x :: y :: ys else y :: insertQAsc x ys

/-- Insertion sort ascending on rationals, modelling Python sorted. -/
def sortQAsc : List ℚ → List ℚ
  | [] => []
  | x :: l => insertQAsc x (sortQAsc l)

/-- Python max of a list of rationals, with an unused default 0 for the
empty list: the source only applies max to non-empty lists. -/
def listMaxD : List ℚ → ℚ
  | [] => 0
  | x :: xs => xs.foldl max x

/-- Index int(len * 0.95) used for the 95th percentile, on exact
arithmetic. -/
def pyIdx95 (n : Nat) : Nat := n * 95 / 100

/-- Positive observed maximum heart rates of the activities whose
start_date is truthy and at or after the cutoff, in input order
(markdown_exporter.py lines 669 to 679). -/
def recentHRs (cutoff : String) (acts : List Activity) : List ℚ :=
  ((acts.filter (fun a => a.start_date != "" && pyStrLe cutoff a.start_date)).filter
    (fun a => decide (0 < a.max_heartrate))).map Activity.max_heartrate

/-- Positive observed maximum heart rates over the whole history, for
the fallback branch of the detection. -/
def allHRs (acts : List Activity) : List ℚ :=
  (acts.filter (fun a => decide (0 < a.max_heartrate))).map Activity.max_heartrate

/-- Embedding of the maximum-heart-rate detection of
activities_to_markdown_by_year (markdown_exporter.py lines 664 to 773),
run when no user maximum is configured.  The date arithmetic
now minus 180 days is abstracted into the cutoff string, compared
against the ISO start_date strings; the detected value is returned and
the printing and date bookkeeping of the source are dropped, since they
do not affect the detected value. -/
def detect_user_max_hr (cutoff : String) (acts : List Activity) : ℚ :=
  let recent_hrs := recentHRs cutoff acts
  if recent_hrs ≠ [] then
    let sorted := sortQDesc recent_hrs
    let top_hrs := sorted.take 10
    let max_detected := listMaxD top_hrs
    if 200 < max_detected then
      let realistic := top_hrs.filter (fun h => decide (h ≤ 200))
      if realistic = [] then (sortQAsc recent_hrs).getD (pyIdx95 recent_hrs.length) 0
      else listMaxD realistic
    else sorted.headD 0
  else
    let all_hrs := allHRs acts
    if all_hrs ≠ [] then
      let sorted := sortQDesc all_hrs
      let max_detected := sorted.headD 0
      if 200 < max_detected then
        let realistic := all_hrs.filter (fun h => decide (h ≤ 200))
        if realistic ≠ [] then listMaxD (sortQAsc realistic)
        else (sortQAsc all_hrs).getD (pyIdx95 all_hrs.length) 0
      else sorted.headD 0
    else 180

/-- C5: the pace computation never divides by zero and never raises:
with distance 0 the pace is reported as not applicable (format_pace
returns "N/A" and calculate_pace_seconds returns the infinite pace),
and with positive distance the pace in seconds per km equals the moving
time divided by the distance in km. -/
theorem pace_zero_safe (m t : ℚ) :
    (m = 0 → format_pace m t = "N/A" ∧ calculate_pace_seconds m t = PaceVal.inf) ∧
    (0 < m → calculate_pace_seconds m t = PaceVal.finite (t / (m / 1000))) := by
  constructor
  · intro h
    subst h
    exact ⟨by simp [format_pace], by simp [calculate_pace_seconds]⟩
  · intro h
    simp [calculate_pace_seconds, h.ne']

/-- Witness for pace_zero_safe at distance 0 and at distance 5000. -/
theorem pace_zero_safe_witness :
    format_pace 0 37 = "N/A" ∧
    calculate_pace_seconds 5000 1500 = PaceVal.finite (1500 / (5000 / 1000)) :=
  ⟨((pace_zero_safe 0 37).1 rfl).1, (pace_zero_safe 5000 1500).2 (by decide)⟩

/-- C8: load_cache never raises: a missing cache file or a parse
failure yields the empty default document, with last_update None and an
empty activity list, and a successful parse yields the parsed
document. -/
theorem load_cache_total (parseJson : String → Except String CacheDoc) :
    load_cache Option.none parseJson = emptyCacheDoc ∧
    (∀ s e, parseJson s = Except.error e → load_cache (Option.some s) parseJson = emptyCacheDoc) ∧
    (∀ s d, parseJson s = Except.ok d → load_cache (Option.some s) parseJson = d) := by
  refine ⟨rfl, ?_, ?_⟩
  · intro s e h
    simp [load_cache, h]
  · intro s d h
    simp [load_cache, h]

/-- Witness for load_cache_total with a parser that always fails. -/
theorem load_cache_total_witness :
    load_cache (Option.some "not json") (fun _ => Except.error "invalid") = emptyCacheDoc :=
  (load_cache_total (fun _ => Except.error "invalid")).2.1 "not json" "invalid" rfl

/-- Keys of the association-list dict. -/
def keysOf (d : List (IdVal × Activity)) : List IdVal := d.map Prod.fst

lemma mem_keysOf {d : List (IdVal × Activity)} {k : IdVal} :
    k ∈ keysOf d ↔ ∃ p ∈ d, p.1 = k := by
  simp [keysOf, List.mem_map]

lemma dictInsert_nil (k : IdVal) (v : Activity) : dictInsert [] k v = [(k, v)] := rfl

lemma dictInsert_cons_pos {q : IdVal × Activity} {d : List (IdVal × Activity)}
    {k : IdVal} {v : Activity} (h : q.1 = k) : dictInsert (q :: d) k v = (k, v) :: d := by
  simp [dictInsert, h]

lemma dictInsert_cons_neg {q : IdVal × Activity} {d : List (IdVal × Activity)}
    {k : IdVal} {v : Activity} (h : ¬ q.1 = k) :
    dictInsert (q :: d) k v = q :: dictInsert d k v := by
  simp [dictInsert, h]

lemma keysOf_cons (q : IdVal × Activity) (d : List (IdVal × Activity)) :
    keysOf (q :: d) = q.1 :: keysOf d := rfl

lemma mem_dictInsert {d : List (IdVal × Activity)} {k : IdVal} {v : Activity}
    {p : IdVal × Activity} (hp : p ∈ dictInsert d k v) : p ∈ d ∨ p = (k, v) := by
  induction d with
  | nil =>
    simp only [dictInsert, List.mem_singleton] at hp
    exact Or.inr hp
  | cons q d ih =>
    by_cases h : q.1 = k
    · simp only [dictInsert, if_pos h, List.mem_cons] at hp
      rcases hp with h1 | h1
      · exact Or.inr h1
      · exact Or.inl (List.mem_cons_of_mem _ h1)
    · simp only [dictInsert, if_neg h, List.mem_cons] at hp
      rcases hp with h1 | h1
      · exact Or.inl (h1 ▸ List.mem_cons_self _ _)
      · rcases ih h1 with h2 | h2
        · exact Or.inl (List.mem_cons_of_mem _ h2)
        · exact Or.inr h2

lemma mem_keys_dictInsert {d : List (IdVal × Activity)} {k : IdVal} {v : Activity} {k' : IdVal} :
    k' ∈ keysOf (dictInsert d k v) ↔ k' = k ∨ k' ∈ keysOf d := by
  induction d with
  | nil =>
    rw [dictInsert_nil]
    simp [keysOf]
  | cons q d ih =>
    by_cases h : q.1 = k
    · rw [dictInsert_cons_pos h, keysOf_cons, keysOf_cons]
      rw [List.mem_cons, List.mem_cons]
      constructor
      · rintro (h1 | h1)
        · exact Or.inl h1
        · exact Or.inr (Or.inr h1)
      · rintro (h1 | h1 | h1)
        · exact Or.inl h1
        · exact Or.inl (h1.trans h)
        · exact Or.inr h1
    · rw [dictInsert_cons_neg h, keysOf_cons, keysOf_cons]
      rw [List.mem_cons, List.mem_cons, ih]
      tauto

lemma keys_nodup_dictInsert {d : List (IdVal × Activity)} {k : IdVal} {v : Activity}
    (h : (keysOf d).Nodup) : (keysOf (dictInsert d k v)).Nodup := by
  induction d with
  | nil =>
    rw [dictInsert_nil]
    simp [keysOf]
  | cons q d ih =>
    rw [keysOf_cons] at h
    rcases List.nodup_cons.mp h with ⟨hq, hd⟩
    by_cases hqk : q.1 = k
    · rw [dictInsert_cons_pos hqk, keysOf_cons]
      exact List.nodup_cons.mpr ⟨by rw [← hqk]; exact hq, hd⟩
    · rw [dictInsert_cons_neg hqk, keysOf_cons]
      refine List.nodup_cons.mpr ⟨?_, ih hd⟩
      intro hmem
      rcases mem_keys_dictInsert.mp hmem with h1 | h1
      · exact hqk h1
      · exact hq h1

lemma pair_eq_of_mem_dictInsert {d : List (IdVal × Activity)} {k : IdVal} {v : Activity}
    {p : IdVal × Activity} (hnd : (keysOf d).Nodup) (hp : p ∈ dictInsert d k v)
    (hk : p.1 = k) : p = (k, v) := by
  induction d with
  | nil =>
    rw [dictInsert_nil] at hp
    simpa using hp
  | cons q d ih =>
    rw [keysOf_cons] at hnd
    rcases List.nodup_cons.mp hnd with ⟨hq, hd⟩
    by_cases hqk : q.1 = k
    · rw [dictInsert_cons_pos hqk] at hp
      rcases List.mem_cons.mp hp with h1 | h1
      · exact h1
      · exfalso
        exact hq (by rw [hqk, ← hk]; exact mem_keysOf.mpr ⟨p, h1, rfl⟩)
    · rw [dictInsert_cons_neg hqk] at hp
      rcases List.mem_cons.mp hp with h1 | h1
      · exact absurd (h1 ▸ hk) hqk
      · exact ih hd h1

lemma length_dictInsert (d : List (IdVal × Activity)) (k : IdVal) (v : Activity) :
    (dictInsert d k v).length = if k ∈ keysOf d then d.length else d.length + 1 := by
  induction d with
  | nil =>
    rw [dictInsert_nil]
    simp [keysOf]
  | cons q d ih =>
    by_cases hqk : q.1 = k
    · rw [dictInsert_cons_pos hqk, keysOf_cons]
      rw [if_pos (List.mem_cons.mpr (Or.inl hqk.symm))]
      simp
    · rw [dictInsert_cons_neg hqk, keysOf_cons]
      have hmem : k ∈ q.1 :: keysOf d ↔ k ∈ keysOf d := by
        rw [List.mem_cons]
        constructor
        · rintro (h | h)
          · exact absurd h.symm hqk
          · exact h
        · exact Or.inr
      by_cases hkd : k ∈ keysOf d
      · rw [if_pos (hmem.mpr hkd)]
        simp [ih, hkd]
      · rw [if_neg (fun h => hkd (hmem.mp h))]
        simp [ih, hkd]

lemma addActivities_nil (d : List (IdVal × Activity)) : addActivities d [] = d := rfl

lemma addActivities_cons (d : List (IdVal × Activity)) (a : Activity) (l : List Activity) :
    addActivities d (a :: l) =
      addActivities (if a.id.truthy then dictInsert d a.id a else d) l := rfl

/-- Invariant of the merge dict: keys are duplicate-free and every
binding maps a truthy id to an activity carrying that id. -/
def MergeInv (d : List (IdVal × Activity)) : Prop :=
  (keysOf d).Nodup ∧ ∀ p ∈ d, p.1 = p.2.id ∧ p.1.truthy = true

lemma mergeInv_dictInsert {d : List (IdVal × Activity)} (h : MergeInv d) {a : Activity}
    (ht : a.id.truthy = true) : MergeInv (dictInsert d a.id a) := by
  refine ⟨keys_nodup_dictInsert h.1, ?_⟩
  intro p hp
  rcases mem_dictInsert hp with h1 | h1
  · exact h.2 p h1
  · subst h1
    exact ⟨rfl, ht⟩

lemma mergeInv_addActivities {l : List Activity} {d : List (IdVal × Activity)}
    (h : MergeInv d) : MergeInv (addActivities d l) := by
  induction l generalizing d with
  | nil => exact h
  | cons a l ih =>
    rw [addActivities_cons]
    by_cases ht : a.id.truthy = true
    · rw [if_pos ht]
      exact ih (mergeInv_dictInsert h ht)
    · rw [if_neg ht]
      exact ih h

lemma mem_addActivities {l : List Activity} {d : List (IdVal × Activity)}
    {p : IdVal × Activity} (hp : p ∈ addActivities d l) : p ∈ d ∨ p.2 ∈ l := by
  induction l generalizing d with
  | nil => exact Or.inl hp
  | cons a l ih =>
    rw [addActivities_cons] at hp
    rcases ih hp with h1 | h1
    · by_cases ht : a.id.truthy = true
      · rw [if_pos ht] at h1
        rcases mem_dictInsert h1 with h2 | h2
        · exact Or.inl h2
        · right
          rw [h2]
          exact List.mem_cons_self _ _
      · rw [if_neg ht] at h1
        exact Or.inl h1
    · exact Or.inr (List.mem_cons_of_mem _ h1)

lemma keys_addActivities_mono {l : List Activity} {d : List (IdVal × Activity)} {k : IdVal}
    (h : k ∈ keysOf d) : k ∈ keysOf (addActivities d l) := by
  induction l generalizing d with
  | nil => exact h
  | cons a l ih =>
    rw [addActivities_cons]
    by_cases ht : a.id.truthy = true
    · rw [if_pos ht]
      exact ih (mem_keys_dictInsert.mpr (Or.inr h))
    · rw [if_neg ht]
      exact ih h

lemma keys_addActivities_of_mem {l : List Activity} {d : List (IdVal × Activity)}
    {a : Activity} (ha : a ∈ l) (ht : a.id.truthy = true) :
    a.id ∈ keysOf (addActivities d l) := by
  induction l generalizing d with
  | nil => cases ha
  | cons b l ih =>
    rw [addActivities_cons]
    rcases List.mem_cons.mp ha with rfl | ha'
    · rw [if_pos ht]
      exact keys_addActivities_mono (mem_keys_dictInsert.mpr (Or.inl rfl))
    · by_cases htb : b.id.truthy = true
      · rw [if_pos htb]
        exact ih ha'
      · rw [if_neg htb]
        exact ih ha'

lemma keys_addActivities_sub {l : List Activity} {d : List (IdVal × Activity)} {k : IdVal}
    (h : k ∈ keysOf (addActivities d l)) : k ∈ keysOf d ∨ ∃ a ∈ l, a.id = k := by
  induction l generalizing d with
  | nil => exact Or.inl h
  | cons a l ih =>
    rw [addActivities_cons] at h
    by_cases ht : a.id.truthy = true
    · rw [if_pos ht] at h
      rcases ih h with h1 | h1
      · rcases mem_keys_dictInsert.mp h1 with h2 | h2
        · exact Or.inr ⟨a, List.mem_cons_self _ _, h2.symm⟩
        · exact Or.inl h2
      · rcases h1 with ⟨b, hb, hbk⟩
        exact Or.inr ⟨b, List.mem_cons_of_mem _ hb, hbk⟩
    · rw [if_neg ht] at h
      rcases ih h with h1 | h1
      · exact Or.inl h1
      · rcases h1 with ⟨b, hb, hbk⟩
        exact Or.inr ⟨b, List.mem_cons_of_mem _ hb, hbk⟩

lemma value_from_new {l : List Activity} {d : List (IdVal × Activity)} {k : IdVal}
    (hnd : (keysOf d).Nodup) (hex : ∃ a ∈ l, a.id = k ∧ k.truthy = true) :
    ∀ p ∈ addActivities d l, p.1 = k → p.2 ∈ l := by
  induction l generalizing d with
  | nil =>
    rcases hex with ⟨a, ha, _⟩
    cases ha
  | cons n l ih =>
    intro p hp hk
    rw [addActivities_cons] at hp
    by_cases hcase : n.id = k ∧ k.truthy = true
    · rcases hcase with ⟨hnk, htk⟩
      have ht : n.id.truthy = true := by rw [hnk]; exact htk
      rw [if_pos ht] at hp
      rcases mem_addActivities hp with h1 | h1
      · have hpk : p = (n.id, n) :=
          pair_eq_of_mem_dictInsert hnd h1 (hk.trans hnk.symm)
        rw [hpk]
        exact List.mem_cons_self _ _
      · exact List.mem_cons_of_mem _ h1
    · rcases hex with ⟨a, ha, hak, htk⟩
      rcases List.mem_cons.mp ha with rfl | ha'
      · exact absurd ⟨hak, htk⟩ hcase
      · have hex' : ∃ a ∈ l, a.id = k ∧ k.truthy = true := ⟨a, ha', hak, htk⟩
        by_cases htn : n.id.truthy = true
        · rw [if_pos htn] at hp
          exact List.mem_cons_of_mem _ (ih (keys_nodup_dictInsert hnd) hex' p hp hk)
        · rw [if_neg htn] at hp
          exact List.mem_cons_of_mem _ (ih hnd hex' p hp hk)

lemma length_addActivities {l : List Activity} {d : List (IdVal × Activity)}
    (hnd : (keysOf d).Nodup) (ht : ∀ a ∈ l, a.id.truthy = true)
    (hln : (l.map Activity.id).Nodup) (hfresh : ∀ a ∈ l, a.id ∉ keysOf d) :
    (addActivities d l).length = d.length + l.length := by
  induction l generalizing d with
  | nil => simp [addActivities_nil]
  | cons a l ih =>
    rw [addActivities_cons, if_pos (ht a (List.mem_cons_self _ _))]
    have hfa : a.id ∉ keysOf d := hfresh a (List.mem_cons_self _ _)
    have hlen : (dictInsert d a.id a).length = d.length + 1 := by
      rw [length_dictInsert, if_neg hfa]
    have hln0 : (a.id :: l.map Activity.id).Nodup := by
      simpa only [List.map_cons] using hln
    have hln' : (l.map Activity.id).Nodup := (List.nodup_cons.mp hln0).2
    have hanotin : a.id ∉ l.map Activity.id := (List.nodup_cons.mp hln0).1
    have hfresh' : ∀ b ∈ l, b.id ∉ keysOf (dictInsert d a.id a) := by
      intro b hb hmem
      rcases mem_keys_dictInsert.mp hmem with h1 | h1
      · exact hanotin (h1 ▸ List.mem_map_of_mem Activity.id hb)
      · exact hfresh b (List.mem_cons_of_mem _ hb) h1
    rw [ih (keys_nodup_dictInsert hnd) (fun b hb => ht b (List.mem_cons_of_mem _ hb))
      hln' hfresh', hlen]
    simp only [List.length_cons]
    omega

lemma leChars_total (a : List Char) : ∀ b, leChars a b = true ∨ leChars b a = true := by
  induction a with
  | nil =>
    intro b
    exact Or.inl rfl
  | cons c cs ih =>
    intro b
    cases b with
    | nil => exact Or.inr rfl
    | cons d ds =>
      by_cases h1 : c < d
      · left
        simp [leChars, h1]
      · by_cases h2 : d < c
        · right
          simp [leChars, h2]
        · rcases ih ds with h | h
          · left
            simp [leChars, h1, h2, h]
          · right
            simp [leChars, h1, h2, h]

lemma leChars_trans (a : List Char) : ∀ b c, leChars a b = true → leChars b c = true →
    leChars a c = true := by
  induction a with
  | nil =>
    intro b c _ _
    rfl
  | cons x xs ih =>
    intro b c h1 h2
    cases b with
    | nil => simp [leChars] at h1
    | cons y ys =>
      cases c with
      | nil => simp [leChars] at h2
      | cons z zs =>
        by_cases hxy : x < y
        · by_cases hyz : y < z
          · simp [leChars, lt_trans hxy hyz]
          · by_cases hzy : z < y
            · simp [leChars, hyz, hzy] at h2
            · have hyz' : y = z := le_antisymm (not_lt.mp hzy) (not_lt.mp hyz)
              have hxz : x < z := hyz' ▸ hxy
              simp [leChars, hxz]
        · by_cases hyx : y < x
          · simp [leChars, hxy, hyx] at h1
          · have hxy' : x = y := le_antisymm (not_lt.mp hyx) (not_lt.mp hxy)
            subst hxy'
            by_cases hxz : x < z
            · simp [leChars, hxz]
            · by_cases hzx : z < x
              · simp [leChars, hxz, hzx] at h2
              · have h1' : leChars xs ys = true := by
                  simpa [leChars, lt_irrefl] using h1
                have h2' : leChars ys zs = true := by
                  simpa [leChars, hxz, hzx] using h2
                simpa [leChars, hxz, hzx] using ih ys zs h1' h2'

lemma pyStrLe_total (a b : String) : pyStrLe a b = true ∨ pyStrLe b a = true :=
  leChars_total a.data b.data

lemma pyStrLe_trans {a b c : String} (h1 : pyStrLe a b = true) (h2 : pyStrLe b c = true) :
    pyStrLe a c = true :=
  leChars_trans a.data b.data c.data h1 h2

lemma perm_insertDesc (a : Activity) (l : List Activity) :
    List.Perm (insertDesc a l) (a :: l) := by
  induction l with
  | nil => exact List.Perm.refl _
  | cons b bs ih =>
    by_cases h : pyStrLe b.start_date a.start_date = true
    · simp only [insertDesc, if_pos h]
      exact List.Perm.refl _
    · simp only [insertDesc, if_neg h]
      exact (ih.cons b).trans (List.Perm.swap a b bs)

lemma perm_sortDesc (l : List Activity) : List.Perm (sortDesc l) l := by
  induction l with
  | nil => exact List.Perm.refl _
  | cons a l ih => exact (perm_insertDesc a (sortDesc l)).trans (ih.cons a)

lemma pairwise_insertDesc {l : List Activity} {a : Activity}
    (h : l.Pairwise (fun x y => pyStrLe y.start_date x.start_date = true)) :
    (insertDesc a l).Pairwise (fun x y => pyStrLe y.start_date x.start_date = true) := by
  induction l with
  | nil => simp [insertDesc]
  | cons b bs ih =>
    rcases List.pairwise_cons.mp h with ⟨hb, hbs⟩
    by_cases hba : pyStrLe b.start_date a.start_date = true
    · simp only [insertDesc, if_pos hba]
      refine List.pairwise_cons.mpr ⟨?_, h⟩
      intro x hx
      rcases List.mem_cons.mp hx with rfl | hx'
      · exact hba
      · exact pyStrLe_trans (hb x hx') hba
    · simp only [insertDesc, if_neg hba]
      refine List.pairwise_cons.mpr ⟨?_, ih hbs⟩
      intro x hx
      have hx2 : x ∈ a :: bs := (perm_insertDesc a bs).mem_iff.mp hx
      rcases List.mem_cons.mp hx2 with rfl | hx'
      · rcases pyStrLe_total b.start_date x.start_date with h1 | h1
        · exact absurd h1 hba
        · exact h1
      · exact hb x hx'

lemma pairwise_sortDesc (l : List Activity) :
    (sortDesc l).Pairwise (fun x y => pyStrLe y.start_date x.start_date = true) := by
  induction l with
  | nil => exact List.Pairwise.nil
  | cons a l ih => exact pairwise_insertDesc ih

/-- Activity with every field at its Python default, used to build the
concrete activities of the witnesses and counterexamples. -/
def baseAct : Activity :=
  { id := IdVal.none, name := "", start_date := "", sport_type := Option.none,
    type := Option.none, distance := 0, moving_time := 0, total_elevation_gain := 0,
    max_speed := 0, max_heartrate := 0, average_watts := 0, max_watts := 0 }

/-- C1: merge_activities returns a list with at most one entry per
identifier, an activity whose identifier occurs in both inputs appears
as the new version (new data wins), and the result is sorted by the
start timestamp key in descending order. -/
theorem merge_dedup_new_wins_sorted (cached new : List Activity) :
    ((merge_activities cached new).map Activity.id).Nodup ∧
    (∀ k : IdVal, k.truthy = true → (∃ c ∈ cached, c.id = k) → (∃ n ∈ new, n.id = k) →
      (∃ x ∈ merge_activities cached new, x.id = k) ∧
      (∀ x ∈ merge_activities cached new, x.id = k → x ∈ new)) ∧
    (merge_activities cached new).Pairwise
      (fun x y => pyStrLe y.start_date x.start_date = true) := by
  have hinv0 : MergeInv ([] : List (IdVal × Activity)) :=
    ⟨List.nodup_nil, fun p hp => absurd hp (List.not_mem_nil p)⟩
  have hinv1 : MergeInv (addActivities [] cached) := mergeInv_addActivities hinv0
  have hinv : MergeInv (addActivities (addActivities [] cached) new) :=
    mergeInv_addActivities hinv1
  have hperm : List.Perm (merge_activities cached new)
      ((addActivities (addActivities [] cached) new).map Prod.snd) := perm_sortDesc _
  refine ⟨?_, ?_, ?_⟩
  · have hids : ((addActivities (addActivities [] cached) new).map Prod.snd).map Activity.id
        = keysOf (addActivities (addActivities [] cached) new) := by
      rw [List.map_map]
      exact List.map_congr_left fun p hp => ((hinv.2 p hp).1).symm
    have hpm := hperm.map Activity.id
    rw [hids] at hpm
    exact hpm.nodup_iff.mpr hinv.1
  · intro k htk _hc hn
    constructor
    · rcases hn with ⟨n, hnmem, hnk⟩
      have hkk : k ∈ keysOf (addActivities (addActivities [] cached) new) :=
        hnk ▸ keys_addActivities_of_mem hnmem (by rw [hnk]; exact htk)
      rcases mem_keysOf.mp hkk with ⟨p, hp, hpk⟩
      refine ⟨p.2, ?_, ?_⟩
      · exact hperm.mem_iff.mpr (List.mem_map_of_mem Prod.snd hp)
      · rw [← (hinv.2 p hp).1, hpk]
    · intro x hx hxk
      rcases List.mem_map.mp (hperm.mem_iff.mp hx) with ⟨p, hp, hpx⟩
      have hpk : p.1 = k := by rw [(hinv.2 p hp).1, hpx, hxk]
      rcases hn with ⟨n, hnmem, hnk⟩
      have hres := value_from_new hinv1.1 ⟨n, hnmem, hnk, htk⟩ p hp hpk
      rw [← hpx]
      exact hres
  · exact pairwise_sortDesc _

/-- Cached version of an activity, for the merge witness. -/
def actOld : Activity :=
  { baseAct with id := IdVal.int 7, name := "old", start_date := "2023-05-01" }

/-- New version of the same activity, for the merge witness. -/
def actNew : Activity :=
  { baseAct with id := IdVal.int 7, name := "new", start_date := "2023-06-01" }

/-- Witness for merge_dedup_new_wins_sorted: merging two versions of
the activity with id 7 keeps an entry with that id. -/
theorem merge_dedup_new_wins_sorted_witness :
    ∃ x ∈ merge_activities [actOld] [actNew], x.id = IdVal.int 7 :=
  ((merge_dedup_new_wins_sorted [actOld] [actNew]).2.1 (IdVal.int 7) (by decide)
    ⟨actOld, List.mem_singleton_self _, rfl⟩ ⟨actNew, List.mem_singleton_self _, rfl⟩).1

/-- C9: merge_activities drops every activity whose id is falsy, and in
particular an id of 0, of the empty string, or None. -/
theorem merge_drops_falsy_ids :
    (∀ (cached new : List Activity) (x : Activity),
      x ∈ merge_activities cached new → x.id.truthy = true) ∧
    (∀ (cached new : List Activity) (a : Activity),
      a.id = IdVal.int 0 ∨ a.id = IdVal.str "" ∨ a.id = IdVal.none →
      a ∉ merge_activities cached new) := by
  have main : ∀ (cached new : List Activity) (x : Activity),
      x ∈ merge_activities cached new → x.id.truthy = true := by
    intro cached new x hx
    have hinv : MergeInv (addActivities (addActivities [] cached) new) :=
      mergeInv_addActivities (mergeInv_addActivities
        ⟨List.nodup_nil, fun p hp => absurd hp (List.not_mem_nil p)⟩)
    rcases List.mem_map.mp ((perm_sortDesc _).mem_iff.mp hx) with ⟨p, hp, hpx⟩
    have h := hinv.2 p hp
    rw [← hpx, ← h.1]
    exact h.2
  refine ⟨main, ?_⟩
  intro cached new a hfalsy ha
  have htr := main cached new a ha
  rcases hfalsy with h | h | h <;> rw [h] at htr <;> exact absurd htr (by decide)

/-- Activity with the falsy id 0, for the C9 witness. -/
def actFalsy : Activity := { baseAct with id := IdVal.int 0, name := "ghost" }

/-- Witness for merge_drops_falsy_ids: an activity with id 0 is not in
the merge of the lists containing it. -/
theorem merge_drops_falsy_ids_witness :
    actFalsy ∉ merge_activities [actFalsy] [] :=
  merge_drops_falsy_ids.2 [actFalsy] [] actFalsy (Or.inl rfl)

/-- First of two cached activities sharing id 1, for the C6
counterexample. -/
def actDupA : Activity :=
  { baseAct with id := IdVal.int 1, name := "first", start_date := "2024-01-01" }

/-- Second of two cached activities sharing id 1, for the C6
counterexample. -/
def actDupB : Activity :=
  { baseAct with id := IdVal.int 1, name := "second", start_date := "2024-02-01" }

/-- C6 counterexample: the inputs [actDupA, actDupB] and [] have
disjoint identifier sets, yet the merged size is 1 and not 2 plus 0:
merge_activities also deduplicates inside a single input, so the claim
as stated fails. -/
theorem merge_disjoint_size_cex :
    (∀ x ∈ [actDupA, actDupB], ∀ y ∈ ([] : List Activity), x.id ≠ y.id) ∧
    (merge_activities [actDupA, actDupB] []).length ≠
      [actDupA, actDupB].length + ([] : List Activity).length := by
  constructor
  · intro x _ y hy
    exact absurd hy (List.not_mem_nil y)
  · decide

/-- C6 amended: for inputs whose activities all carry truthy ids, with
no duplicate id inside either input and disjoint id sets across the
inputs, the merged size equals the sum of the input sizes. -/
theorem merge_disjoint_size_amended (cached new : List Activity)
    (h1 : ∀ a ∈ cached, a.id.truthy = true) (h2 : (cached.map Activity.id).Nodup)
    (h3 : ∀ a ∈ new, a.id.truthy = true) (h4 : (new.map Activity.id).Nodup)
    (h5 : ∀ a ∈ cached, ∀ b ∈ new, a.id ≠ b.id) :
    (merge_activities cached new).length = cached.length + new.length := by
  have hlen : (merge_activities cached new).length
      = (addActivities (addActivities [] cached) new).length := by
    show (sortDesc ((addActivities (addActivities [] cached) new).map Prod.snd)).length = _
    rw [(perm_sortDesc _).length_eq, List.length_map]
  have hk0 : (keysOf ([] : List (IdVal × Activity))).Nodup := List.nodup_nil
  have hfresh0 : ∀ a ∈ cached, a.id ∉ keysOf ([] : List (IdVal × Activity)) := by
    intro a _ h
    exact absurd h (List.not_mem_nil _)
  have hlen1 : (addActivities [] cached).length = cached.length := by
    have h := length_addActivities hk0 h1 h2 hfresh0
    simpa using h
  have hnd1 : (keysOf (addActivities [] cached)).Nodup :=
    (mergeInv_addActivities
      ⟨hk0, fun p hp => absurd hp (List.not_mem_nil p)⟩ :
        MergeInv (addActivities [] cached)).1
  have hfresh1 : ∀ b ∈ new, b.id ∉ keysOf (addActivities [] cached) := by
    intro b hb hmem
    rcases keys_addActivities_sub hmem with h | h
    · exact absurd h (List.not_mem_nil _)
    · rcases h with ⟨a, ha, hab⟩
      exact h5 a ha b hb hab
  rw [hlen, length_addActivities hnd1 h3 h4 hfresh1, hlen1]

/-- Activity with id 1, for the C6 witness. -/
def actW1 : Activity := { baseAct with id := IdVal.int 1, start_date := "2024-01-01" }

/-- Activity with id 2, for the C6 witness. -/
def actW2 : Activity := { baseAct with id := IdVal.int 2, start_date := "2024-02-01" }

/-- Witness for merge_disjoint_size_amended on two disjoint
singletons. -/
theorem merge_disjoint_size_amended_witness :
    (merge_activities [actW1] [actW2]).length = [actW1].length + [actW2].length :=
  merge_disjoint_size_amended [actW1] [actW2] (by decide) (by decide) (by decide)
    (by decide) (by decide)

lemma recordStep_max_distance (s : String) (r : SportRecords) (a : Activity) :
    (recordStep s r a).max_distance =
      if isValidPace s a = true ∧ r.max_distance.value < a.distance
      then ⟨a.distance, Option.some a⟩ else r.max_distance := rfl

lemma recordStep_max_time (s : String) (r : SportRecords) (a : Activity) :
    (recordStep s r a).max_time =
      if isValidPace s a = true ∧ r.max_time.value < a.moving_time
      then ⟨a.moving_time, Option.some a⟩ else r.max_time := rfl

lemma recordStep_max_elevation (s : String) (r : SportRecords) (a : Activity) :
    (recordStep s r a).max_elevation =
      if isValidPace s a = true ∧ r.max_elevation.value < a.total_elevation_gain
      then ⟨a.total_elevation_gain, Option.some a⟩ else r.max_elevation := rfl

lemma recordStep_best_pace (s : String) (r : SportRecords) (a : Activity) :
    (recordStep s r a).best_pace =
      if isValidPace s a = true ∧ 0 < a.distance ∧
          ltMinQ (a.moving_time / (a.distance / 1000)) r.best_pace.value = true
      then ⟨Option.some (a.moving_time / (a.distance / 1000)), Option.some a⟩
      else r.best_pace := rfl

lemma recordStep_max_speed (s : String) (r : SportRecords) (a : Activity) :
    (recordStep s r a).max_speed =
      if r.max_speed.value < a.max_speed
      then ⟨a.max_speed, Option.some a⟩ else r.max_speed := rfl

lemma recordStep_max_heartrate (s : String) (r : SportRecords) (a : Activity) :
    (recordStep s r a).max_heartrate =
      if r.max_heartrate.value < a.max_heartrate
      then ⟨a.max_heartrate, Option.some a⟩ else r.max_heartrate := rfl

lemma recordStep_max_avg_watts (s : String) (r : SportRecords) (a : Activity) :
    (recordStep s r a).max_avg_watts =
      if a.average_watts ≠ 0 ∧ r.max_avg_watts.value < a.average_watts
      then ⟨a.average_watts, Option.some a⟩ else r.max_avg_watts := rfl

lemma recordStep_max_watts (s : String) (r : SportRecords) (a : Activity) :
    (recordStep s r a).max_watts =
      if a.max_watts ≠ 0 ∧ r.max_watts.value < a.max_watts
      then ⟨a.max_watts, Option.some a⟩ else r.max_watts := rfl

lemma recordStep_best_time (s : String) (r : SportRecords) (a : Activity) (t : ℚ) :
    (recordStep s r a).best_time t =
      if isValidPace s a = true ∧ t ∈ distance_targets s ∧ 0 < a.distance ∧
          0 < a.moving_time ∧ t ≤ a.distance ∧
          min_times t ≤ (t / a.distance) * a.moving_time ∧
          ltMinQ ((t / a.distance) * a.moving_time) (r.best_time t).value = true
      then ⟨Option.some ((t / a.distance) * a.moving_time), Option.some a⟩
      else r.best_time t := rfl

lemma max_pace_limit_pos (s : String) : 0 < max_pace_limit s := by
  unfold max_pace_limit
  split <;> norm_num

lemma isValidPace_le {s : String} {a : Activity} (h : isValidPace s a = true)
    (hd : 0 < a.distance) (hm : 0 < a.moving_time) :
    a.moving_time / (a.distance / 1000) ≤ max_pace_limit s := by
  unfold isValidPace at h
  rw [if_pos ⟨hd, hm⟩] at h
  unfold calculate_pace_seconds at h
  rw [if_neg hd.ne'] at h
  simpa using h

lemma isValidPace_zero {s : String} {a : Activity}
    (h : ¬ (0 < a.distance ∧ 0 < a.moving_time)) : isValidPace s a = true := by
  unfold isValidPace
  rw [if_neg h]

lemma calculate_records_eq {acts : List Activity} {s : String} {r : SportRecords}
    (h : calculate_records acts s = Option.some r) : r = recordsFold acts s := by
  unfold calculate_records at h
  split at h
  · exact (Option.some.inj h).symm
  · cases h

lemma foldl_max_distance (s : String) (l : List Activity) :
    ∀ r : SportRecords, (l.foldl (recordStep s) r).max_distance = r.max_distance ∨
      ∃ a ∈ l, (l.foldl (recordStep s) r).max_distance = ⟨a.distance, Option.some a⟩ ∧
        isValidPace s a = true := by
  induction l with
  | nil => intro r; exact Or.inl rfl
  | cons a l ih =>
    intro r
    rw [List.foldl_cons]
    rcases ih (recordStep s r a) with h | ⟨b, hb, h, hv⟩
    · rw [h, recordStep_max_distance]
      by_cases hc : isValidPace s a = true ∧ r.max_distance.value < a.distance
      · rw [if_pos hc]
        exact Or.inr ⟨a, List.mem_cons_self a l, rfl, hc.1⟩
      · rw [if_neg hc]
        exact Or.inl rfl
    · exact Or.inr ⟨b, List.mem_cons_of_mem _ hb, h, hv⟩

lemma foldl_max_time (s : String) (l : List Activity) :
    ∀ r : SportRecords, (l.foldl (recordStep s) r).max_time = r.max_time ∨
      ∃ a ∈ l, (l.foldl (recordStep s) r).max_time = ⟨a.moving_time, Option.some a⟩ ∧
        isValidPace s a = true := by
  induction l with
  | nil => intro r; exact Or.inl rfl
  | cons a l ih =>
    intro r
    rw [List.foldl_cons]
    rcases ih (recordStep s r a) with h | ⟨b, hb, h, hv⟩
    · rw [h, recordStep_max_time]
      by_cases hc : isValidPace s a = true ∧ r.max_time.value < a.moving_time
      · rw [if_pos hc]
        exact Or.inr ⟨a, List.mem_cons_self a l, rfl, hc.1⟩
      · rw [if_neg hc]
        exact Or.inl rfl
    · exact Or.inr ⟨b, List.mem_cons_of_mem _ hb, h, hv⟩

lemma foldl_max_elevation (s : String) (l : List Activity) :
    ∀ r : SportRecords, (l.foldl (recordStep s) r).max_elevation = r.max_elevation ∨
      ∃ a ∈ l, (l.foldl (recordStep s) r).max_elevation =
        ⟨a.total_elevation_gain, Option.some a⟩ ∧ isValidPace s a = true := by
  induction l with
  | nil => intro r; exact Or.inl rfl
  | cons a l ih =>
    intro r
    rw [List.foldl_cons]
    rcases ih (recordStep s r a) with h | ⟨b, hb, h, hv⟩
    · rw [h, recordStep_max_elevation]
      by_cases hc : isValidPace s a = true ∧ r.max_elevation.value < a.total_elevation_gain
      · rw [if_pos hc]
        exact Or.inr ⟨a, List.mem_cons_self a l, rfl, hc.1⟩
      · rw [if_neg hc]
        exact Or.inl rfl
    · exact Or.inr ⟨b, List.mem_cons_of_mem _ hb, h, hv⟩

lemma foldl_best_pace (s : String) (l : List Activity) :
    ∀ r : SportRecords, (l.foldl (recordStep s) r).best_pace = r.best_pace ∨
      ∃ a ∈ l, (l.foldl (recordStep s) r).best_pace =
        ⟨Option.some (a.moving_time / (a.distance / 1000)), Option.some a⟩ ∧
        isValidPace s a = true ∧ 0 < a.distance := by
  induction l with
  | nil => intro r; exact Or.inl rfl
  | cons a l ih =>
    intro r
    rw [List.foldl_cons]
    rcases ih (recordStep s r a) with h | ⟨b, hb, h, hv, hd⟩
    · rw [h, recordStep_best_pace]
      by_cases hc : isValidPace s a = true ∧ 0 < a.distance ∧
          ltMinQ (a.moving_time / (a.distance / 1000)) r.best_pace.value = true
      · rw [if_pos hc]
        exact Or.inr ⟨a, List.mem_cons_self a l, rfl, hc.1, hc.2.1⟩
      · rw [if_neg hc]
        exact Or.inl rfl
    · exact Or.inr ⟨b, List.mem_cons_of_mem _ hb, h, hv, hd⟩

lemma step_max_speed_le (s : String) (r : SportRecords) (a : Activity) :
    r.max_speed.value ≤ (recordStep s r a).max_speed.value := by
  rw [recordStep_max_speed]
  by_cases h : r.max_speed.value < a.max_speed
  · rw [if_pos h]
    exact le_of_lt h
  · rw [if_neg h]

lemma foldl_max_speed_mono (s : String) (l : List Activity) :
    ∀ r : SportRecords, r.max_speed.value ≤ (l.foldl (recordStep s) r).max_speed.value := by
  induction l with
  | nil => intro r; exact le_refl _
  | cons a l ih =>
    intro r
    rw [List.foldl_cons]
    exact le_trans (step_max_speed_le s r a) (ih (recordStep s r a))

lemma foldl_max_speed_ge (s : String) (l : List Activity) :
    ∀ r : SportRecords, ∀ a ∈ l, a.max_speed ≤ (l.foldl (recordStep s) r).max_speed.value := by
  induction l with
  | nil => intro r a ha; cases ha
  | cons b l ih =>
    intro r a ha
    rw [List.foldl_cons]
    rcases List.mem_cons.mp ha with rfl | ha'
    · refine le_trans ?_ (foldl_max_speed_mono s l (recordStep s r a))
      rw [recordStep_max_speed]
      by_cases h : r.max_speed.value < a.max_speed
      · rw [if_pos h]
      · rw [if_neg h]
        exact le_of_not_lt h
    · exact ih (recordStep s r b) a ha'

lemma step_max_heartrate_le (s : String) (r : SportRecords) (a : Activity) :
    r.max_heartrate.value ≤ (recordStep s r a).max_heartrate.value := by
  rw [recordStep_max_heartrate]
  by_cases h : r.max_heartrate.value < a.max_heartrate
  · rw [if_pos h]
    exact le_of_lt h
  · rw [if_neg h]

lemma foldl_max_heartrate_mono (s : String) (l : List Activity) :
    ∀ r : SportRecords,
      r.max_heartrate.value ≤ (l.foldl (recordStep s) r).max_heartrate.value := by
  induction l with
  | nil => intro r; exact le_refl _
  | cons a l ih =>
    intro r
    rw [List.foldl_cons]
    exact le_trans (step_max_heartrate_le s r a) (ih (recordStep s r a))

lemma foldl_max_heartrate_ge (s : String) (l : List Activity) :
    ∀ r : SportRecords, ∀ a ∈ l,
      a.max_heartrate ≤ (l.foldl (recordStep s) r).max_heartrate.value := by
  induction l with
  | nil => intro r a ha; cases ha
  | cons b l ih =>
    intro r a ha
    rw [List.foldl_cons]
    rcases List.mem_cons.mp ha with rfl | ha'
    · refine le_trans ?_ (foldl_max_heartrate_mono s l (recordStep s r a))
      rw [recordStep_max_heartrate]
      by_cases h : r.max_heartrate.value < a.max_heartrate
      · rw [if_pos h]
      · rw [if_neg h]
        exact le_of_not_lt h
    · exact ih (recordStep s r b) a ha'

lemma step_max_avg_watts_le (s : String) (r : SportRecords) (a : Activity) :
    r.max_avg_watts.value ≤ (recordStep s r a).max_avg_watts.value := by
  rw [recordStep_max_avg_watts]
  by_cases h : a.average_watts ≠ 0 ∧ r.max_avg_watts.value < a.average_watts
  · rw [if_pos h]
    exact le_of_lt h.2
  · rw [if_neg h]

lemma foldl_max_avg_watts_mono (s : String) (l : List Activity) :
    ∀ r : SportRecords,
      r.max_avg_watts.value ≤ (l.foldl (recordStep s) r).max_avg_watts.value := by
  induction l with
  | nil => intro r; exact le_refl _
  | cons a l ih =>
    intro r
    rw [List.foldl_cons]
    exact le_trans (step_max_avg_watts_le s r a) (ih (recordStep s r a))

lemma foldl_max_avg_watts_ge (s : String) (l : List Activity) :
    ∀ r : SportRecords, 0 ≤ r.max_avg_watts.value → ∀ a ∈ l,
      a.average_watts ≤ (l.foldl (recordStep s) r).max_avg_watts.value := by
  induction l with
  | nil => intro r _ a ha; cases ha
  | cons b l ih =>
    intro r h0 a ha
    rw [List.foldl_cons]
    rcases List.mem_cons.mp ha with rfl | ha'
    · refine le_trans ?_ (foldl_max_avg_watts_mono s l (recordStep s r a))
      rw [recordStep_max_avg_watts]
      by_cases h : a.average_watts ≠ 0 ∧ r.max_avg_watts.value < a.average_watts
      · rw [if_pos h]
      · rw [if_neg h]
        by_cases hz : a.average_watts = 0
        · rw [hz]
          exact h0
        · exact le_of_not_lt fun hlt => h ⟨hz, hlt⟩
    · exact ih (recordStep s r b) (le_trans h0 (step_max_avg_watts_le s r b)) a ha'

lemma step_max_watts_le (s : String) (r : SportRecords) (a : Activity) :
    r.max_watts.value ≤ (recordStep s r a).max_watts.value := by
  rw [recordStep_max_watts]
  by_cases h : a.max_watts ≠ 0 ∧ r.max_watts.value < a.max_watts
  · rw [if_pos h]
    exact le_of_lt h.2
  · rw [if_neg h]

lemma foldl_max_watts_mono (s : String) (l : List Activity) :
    ∀ r : SportRecords,
      r.max_watts.value ≤ (l.foldl (recordStep s) r).max_watts.value := by
  induction l with
  | nil => intro r; exact le_refl _
  | cons a l ih =>
    intro r
    rw [List.foldl_cons]
    exact le_trans (step_max_watts_le s r a) (ih (recordStep s r a))

lemma foldl_max_watts_ge (s : String) (l : List Activity) :
    ∀ r : SportRecords, 0 ≤ r.max_watts.value → ∀ a ∈ l,
      a.max_watts ≤ (l.foldl (recordStep s) r).max_watts.value := by
  induction l with
  | nil => intro r _ a ha; cases ha
  | cons b l ih =>
    intro r h0 a ha
    rw [List.foldl_cons]
    rcases List.mem_cons.mp ha with rfl | ha'
    · refine le_trans ?_ (foldl_max_watts_mono s l (recordStep s r a))
      rw [recordStep_max_watts]
      by_cases h : a.max_watts ≠ 0 ∧ r.max_watts.value < a.max_watts
      · rw [if_pos h]
      · rw [if_neg h]
        by_cases hz : a.max_watts = 0
        · rw [hz]
          exact h0
        · exact le_of_not_lt fun hlt => h ⟨hz, hlt⟩
    · exact ih (recordStep s r b) (le_trans h0 (step_max_watts_le s r b)) a ha'

lemma step_max_time_le (s : String) (r : SportRecords) (a : Activity) :
    r.max_time.value ≤ (recordStep s r a).max_time.value := by
  rw [recordStep_max_time]
  by_cases h : isValidPace s a = true ∧ r.max_time.value < a.moving_time
  · rw [if_pos h]
    exact le_of_lt h.2
  · rw [if_neg h]

lemma foldl_max_time_mono (s : String) (l : List Activity) :
    ∀ r : SportRecords, r.max_time.value ≤ (l.foldl (recordStep s) r).max_time.value := by
  induction l with
  | nil => intro r; exact le_refl _
  | cons a l ih =>
    intro r
    rw [List.foldl_cons]
    exact le_trans (step_max_time_le s r a) (ih (recordStep s r a))

lemma foldl_max_time_ge (s : String) (l : List Activity) :
    ∀ r : SportRecords, ∀ a ∈ l, isValidPace s a = true →
      a.moving_time ≤ (l.foldl (recordStep s) r).max_time.value := by
  induction l with
  | nil => intro r a ha; cases ha
  | cons b l ih =>
    intro r a ha hv
    rw [List.foldl_cons]
    rcases List.mem_cons.mp ha with rfl | ha'
    · refine le_trans ?_ (foldl_max_time_mono s l (recordStep s r a))
      rw [recordStep_max_time]
      by_cases h : isValidPace s a = true ∧ r.max_time.value < a.moving_time
      · rw [if_pos h]
      · rw [if_neg h]
        exact le_of_not_lt fun hlt => h ⟨hv, hlt⟩
    · exact ih (recordStep s r b) a ha' hv

lemma step_max_elevation_le (s : String) (r : SportRecords) (a : Activity) :
    r.max_elevation.value ≤ (recordStep s r a).max_elevation.value := by
  rw [recordStep_max_elevation]
  by_cases h : isValidPace s a = true ∧ r.max_elevation.value < a.total_elevation_gain
  · rw [if_pos h]
    exact le_of_lt h.2
  · rw [if_neg h]

lemma foldl_max_elevation_mono (s : String) (l : List Activity) :
    ∀ r : SportRecords,
      r.max_elevation.value ≤ (l.foldl (recordStep s) r).max_elevation.value := by
  induction l with
  | nil => intro r; exact le_refl _
  | cons a l ih =>
    intro r
    rw [List.foldl_cons]
    exact le_trans (step_max_elevation_le s r a) (ih (recordStep s r a))

lemma foldl_max_elevation_ge (s : String) (l : List Activity) :
    ∀ r : SportRecords, ∀ a ∈ l, isValidPace s a = true →
      a.total_elevation_gain ≤ (l.foldl (recordStep s) r).max_elevation.value := by
  induction l with
  | nil => intro r a ha; cases ha
  | cons b l ih =>
    intro r a ha hv
    rw [List.foldl_cons]
    rcases List.mem_cons.mp ha with rfl | ha'
    · refine le_trans ?_ (foldl_max_elevation_mono s l (recordStep s r a))
      rw [recordStep_max_elevation]
      by_cases h : isValidPace s a = true ∧ r.max_elevation.value < a.total_elevation_gain
      · rw [if_pos h]
      · rw [if_neg h]
        exact le_of_not_lt fun hlt => h ⟨hv, hlt⟩
    · exact ih (recordStep s r b) a ha' hv

lemma foldl_best_time (s : String) (t : ℚ) (l : List Activity) :
    ∀ r : SportRecords, (l.foldl (recordStep s) r).best_time t = r.best_time t ∨
      ∃ a ∈ l, (l.foldl (recordStep s) r).best_time t =
        ⟨Option.some ((t / a.distance) * a.moving_time), Option.some a⟩ ∧
        isValidPace s a = true ∧ t ∈ distance_targets s ∧ 0 < a.distance ∧
        0 < a.moving_time ∧ t ≤ a.distance ∧
        min_times t ≤ (t / a.distance) * a.moving_time := by
  induction l with
  | nil => intro r; exact Or.inl rfl
  | cons a l ih =>
    intro r
    rw [List.foldl_cons]
    rcases ih (recordStep s r a) with h | ⟨b, hb, h, hrest⟩
    · rw [h, recordStep_best_time]
      by_cases hc : isValidPace s a = true ∧ t ∈ distance_targets s ∧ 0 < a.distance ∧
          0 < a.moving_time ∧ t ≤ a.distance ∧
          min_times t ≤ (t / a.distance) * a.moving_time ∧
          ltMinQ ((t / a.distance) * a.moving_time) (r.best_time t).value = true
      · rw [if_pos hc]
        exact Or.inr ⟨a, List.mem_cons_self a l, rfl, hc.1, hc.2.1, hc.2.2.1, hc.2.2.2.1,
          hc.2.2.2.2.1, hc.2.2.2.2.2.1⟩
      · rw [if_neg hc]
        exact Or.inl rfl
    · exact Or.inr ⟨b, List.mem_cons_of_mem _ hb, h, hrest⟩

lemma foldl_best_time_valmono (s : String) (t : ℚ) (l : List Activity) :
    ∀ (r : SportRecords) (w : ℚ), (r.best_time t).value = Option.some w →
      ∃ v, ((l.foldl (recordStep s) r).best_time t).value = Option.some v ∧ v ≤ w := by
  induction l with
  | nil => intro r w h; exact ⟨w, h, le_refl w⟩
  | cons a l ih =>
    intro r w h
    rw [List.foldl_cons]
    by_cases hc : isValidPace s a = true ∧ t ∈ distance_targets s ∧ 0 < a.distance ∧
        0 < a.moving_time ∧ t ≤ a.distance ∧
        min_times t ≤ (t / a.distance) * a.moving_time ∧
        ltMinQ ((t / a.distance) * a.moving_time) (r.best_time t).value = true
    · have hstep : ((recordStep s r a).best_time t).value =
          Option.some ((t / a.distance) * a.moving_time) := by
        rw [recordStep_best_time, if_pos hc]
      have hlt : (t / a.distance) * a.moving_time < w := by
        have hq := hc.2.2.2.2.2.2
        rw [h] at hq
        simpa only [ltMinQ, decide_eq_true_eq] using hq
      rcases ih (recordStep s r a) _ hstep with ⟨v, hv, hvle⟩
      exact ⟨v, hv, le_trans hvle (le_of_lt hlt)⟩
    · have hstep : ((recordStep s r a).best_time t).value = Option.some w := by
        rw [recordStep_best_time, if_neg hc]
        exact h
      exact ih (recordStep s r a) w hstep

lemma foldl_best_time_le (s : String) (t : ℚ) (l : List Activity) :
    ∀ r : SportRecords, ∀ b ∈ l, isValidPace s b = true → t ∈ distance_targets s →
      0 < b.distance → 0 < b.moving_time → t ≤ b.distance →
      min_times t ≤ (t / b.distance) * b.moving_time →
      ∃ v, ((l.foldl (recordStep s) r).best_time t).value = Option.some v ∧
        v ≤ (t / b.distance) * b.moving_time := by
  induction l with
  | nil => intro r b hb; cases hb
  | cons a l ih =>
    intro r b hb hv ht hd hm htd hmin
    rw [List.foldl_cons]
    rcases List.mem_cons.mp hb with rfl | hb'
    · by_cases hlt : ltMinQ ((t / b.distance) * b.moving_time) (r.best_time t).value = true
      · have hstep : ((recordStep s r b).best_time t).value =
            Option.some ((t / b.distance) * b.moving_time) := by
          rw [recordStep_best_time, if_pos ⟨hv, ht, hd, hm, htd, hmin, hlt⟩]
        exact foldl_best_time_valmono s t l _ _ hstep
      · cases hx : (r.best_time t).value with
        | none =>
          rw [hx] at hlt
          exact absurd rfl hlt
        | some w =>
          have hwle : w ≤ (t / b.distance) * b.moving_time := by
            rw [hx] at hlt
            simp only [ltMinQ, decide_eq_true_eq] at hlt
            exact le_of_not_lt hlt
          have hstep : ((recordStep s r b).best_time t).value = Option.some w := by
            rw [recordStep_best_time, if_neg fun hcond => hlt hcond.2.2.2.2.2.2]
            exact hx
          rcases foldl_best_time_valmono s t l _ _ hstep with ⟨v, hval, hvle⟩
          exact ⟨v, hval, le_trans hvle hwle⟩
    · exact ih (recordStep s r a) b hb' hv ht hd hm htd hmin

/-- C2 amended: a pace-gated record (max distance, max time, max
elevation, best pace) is only taken from an activity whose implied pace
does not exceed the sport ceiling, where the gate applies when distance
and moving time are both positive (and the best-pace record always
satisfies the bound); max-speed, max-heart-rate and both power records
are accepted from any activity of the sport.  The gate rejects slow
paces only: an implausibly fast activity such as 20000 m in 60 s is not
excluded, see the counterexample. -/
theorem records_pace_gate_amended (acts : List Activity) (s : String) (r : SportRecords)
    (h : calculate_records acts s = Option.some r) :
    (∀ a, r.max_distance.activity = Option.some a → 0 < a.distance → 0 < a.moving_time →
      a.moving_time / (a.distance / 1000) ≤ max_pace_limit s) ∧
    (∀ a, r.max_time.activity = Option.some a → 0 < a.distance → 0 < a.moving_time →
      a.moving_time / (a.distance / 1000) ≤ max_pace_limit s) ∧
    (∀ a, r.max_elevation.activity = Option.some a → 0 < a.distance → 0 < a.moving_time →
      a.moving_time / (a.distance / 1000) ≤ max_pace_limit s) ∧
    (∀ a, r.best_pace.activity = Option.some a →
      a.moving_time / (a.distance / 1000) ≤ max_pace_limit s) ∧
    (∀ a ∈ acts, sportOf a = s → a.max_speed ≤ r.max_speed.value) ∧
    (∀ a ∈ acts, sportOf a = s → a.max_heartrate ≤ r.max_heartrate.value) ∧
    (∀ a ∈ acts, sportOf a = s → a.average_watts ≤ r.max_avg_watts.value) ∧
    (∀ a ∈ acts, sportOf a = s → a.max_watts ≤ r.max_watts.value) := by
  have hr := calculate_records_eq h
  subst hr
  unfold recordsFold
  refine ⟨?_, ?_, ?_, ?_, ?_, ?_, ?_, ?_⟩
  · intro a ha hd hm
    rcases foldl_max_distance s (acts.filter fun a => decide (sportOf a = s)) initRecords
      with h1 | ⟨b, _, h1, hv⟩
    · rw [h1] at ha
      simp [initRecords] at ha
    · rw [h1] at ha
      have hab : b = a := by simpa using ha
      subst hab
      exact isValidPace_le hv hd hm
  · intro a ha hd hm
    rcases foldl_max_time s (acts.filter fun a => decide (sportOf a = s)) initRecords
      with h1 | ⟨b, _, h1, hv⟩
    · rw [h1] at ha
      simp [initRecords] at ha
    · rw [h1] at ha
      have hab : b = a := by simpa using ha
      subst hab
      exact isValidPace_le hv hd hm
  · intro a ha hd hm
    rcases foldl_max_elevation s (acts.filter fun a => decide (sportOf a = s)) initRecords
      with h1 | ⟨b, _, h1, hv⟩
    · rw [h1] at ha
      simp [initRecords] at ha
    · rw [h1] at ha
      have hab : b = a := by simpa using ha
      subst hab
      exact isValidPace_le hv hd hm
  · intro a ha
    rcases foldl_best_pace s (acts.filter fun a => decide (sportOf a = s)) initRecords
      with h1 | ⟨b, _, h1, hv, hd⟩
    · rw [h1] at ha
      simp [initRecords] at ha
    · rw [h1] at ha
      have hab : b = a := by simpa using ha
      rw [hab] at hv hd
      by_cases hm : 0 < a.moving_time
      · exact isValidPace_le hv hd hm
      · have hple : a.moving_time / (a.distance / 1000) ≤ 0 := by
          apply div_nonpos_iff.mpr
          right
          constructor
          · exact le_of_not_lt hm
          · positivity
        exact le_trans hple (le_of_lt (max_pace_limit_pos s))
  · intro a ha hsp
    exact foldl_max_speed_ge s _ initRecords a
      (List.mem_filter.mpr ⟨ha, by simp [hsp]⟩)
  · intro a ha hsp
    exact foldl_max_heartrate_ge s _ initRecords a
      (List.mem_filter.mpr ⟨ha, by simp [hsp]⟩)
  · intro a ha hsp
    exact foldl_max_avg_watts_ge s _ initRecords (le_refl 0) a
      (List.mem_filter.mpr ⟨ha, by simp [hsp]⟩)
  · intro a ha hsp
    exact foldl_max_watts_ge s _ initRecords (le_refl 0) a
      (List.mem_filter.mpr ⟨ha, by simp [hsp]⟩)

/-- Ride of 20000 m in 60 s: an implausibly fast activity, whose pace 3
s per km is below the 900 s per km ceiling. -/
def rideFast : Activity :=
  { baseAct with
    id := IdVal.int 3
    name := "teleport"
    start_date := "2024-03-01"
    sport_type := Option.some "Ride"
    distance := 20000
    moving_time := 60 }

lemma rideFast_valid : isValidPace "Ride" rideFast = true := by
  unfold isValidPace calculate_pace_seconds
  rw [show rideFast.distance = (20000 : ℚ) from rfl,
    show rideFast.moving_time = (60 : ℚ) from rfl,
    show max_pace_limit "Ride" = 900 from rfl]
  norm_num

/-- C2 counterexample: the claim says an activity with an implausible
pace of 20000 m in 60 s sets none of the pace-gated records, but the
gate only rejects paces above the ceiling, and this activity (pace 3 s
per km) sets the max-distance record. -/
theorem records_pace_gate_cex :
    calculate_records [rideFast] "Ride" = Option.some (recordsFold [rideFast] "Ride") ∧
    (recordsFold [rideFast] "Ride").max_distance = ⟨20000, Option.some rideFast⟩ ∧
    calculate_pace_seconds rideFast.distance rideFast.moving_time = PaceVal.finite 3 := by
  refine ⟨rfl, ?_, ?_⟩
  · have hfold : recordsFold [rideFast] "Ride" = recordStep "Ride" initRecords rideFast := rfl
    have hlt : initRecords.max_distance.value < rideFast.distance := by
      show (0 : ℚ) < 20000
      norm_num
    rw [hfold, recordStep_max_distance, if_pos ⟨rideFast_valid, hlt⟩]
    rfl
  · unfold calculate_pace_seconds
    rw [show rideFast.distance = (20000 : ℚ) from rfl,
      show rideFast.moving_time = (60 : ℚ) from rfl]
    norm_num

/-- Witness for records_pace_gate_amended: an implausibly slow ride of
1000 m in 1200 s (pace 1200 s per km, above the 900 ceiling) does not
reach the max-distance record. -/
def rideSlow : Activity :=
  { baseAct with
    id := IdVal.int 4
    name := "crawl"
    start_date := "2024-03-02"
    sport_type := Option.some "Ride"
    distance := 1000
    moving_time := 1200 }

/-- Witness for records_pace_gate_amended on a singleton ride list. -/
theorem records_pace_gate_amended_witness :
    rideSlow.max_speed ≤ (recordsFold [rideSlow] "Ride").max_speed.value :=
  (records_pace_gate_amended [rideSlow] "Ride" (recordsFold [rideSlow] "Ride")
    rfl).2.2.2.2.1 rideSlow (List.mem_singleton_self _) rfl

/-- C10: the pace-sanity gate is evaluated only when distance and
moving time are both positive: an activity with distance 0 or moving
time 0 always counts as having a valid pace, and such an activity still
bounds the max-time and max-elevation records of its sport from
below. -/
theorem pace_gate_skip_zero :
    (∀ (s : String) (a : Activity), a.distance = 0 ∨ a.moving_time = 0 →
      isValidPace s a = true) ∧
    (∀ (acts : List Activity) (s : String) (r : SportRecords),
      calculate_records acts s = Option.some r → ∀ a ∈ acts, sportOf a = s →
      a.distance = 0 ∨ a.moving_time = 0 →
      a.moving_time ≤ r.max_time.value ∧
        a.total_elevation_gain ≤ r.max_elevation.value) := by
  have main1 : ∀ (s : String) (a : Activity), a.distance = 0 ∨ a.moving_time = 0 →
      isValidPace s a = true := by
    intro s a h
    apply isValidPace_zero
    rintro ⟨hd, hm⟩
    rcases h with h | h
    · rw [h] at hd
      exact absurd hd (lt_irrefl 0)
    · rw [h] at hm
      exact absurd hm (lt_irrefl 0)
  refine ⟨main1, ?_⟩
  intro acts s r h a ha hs hz
  have hr := calculate_records_eq h
  subst hr
  unfold recordsFold
  have hmem : a ∈ acts.filter fun a => decide (sportOf a = s) :=
    List.mem_filter.mpr ⟨ha, by simp [hs]⟩
  exact ⟨foldl_max_time_ge s _ initRecords a hmem (main1 s a hz),
    foldl_max_elevation_ge s _ initRecords a hmem (main1 s a hz)⟩

/-- Zero-distance run with a huge moving time, for the C10 witness. -/
def zAct : Activity :=
  { baseAct with
    id := IdVal.int 9
    name := "stuck gps"
    start_date := "2024-03-03"
    sport_type := Option.some "Run"
    moving_time := 999999 }

/-- Witness for pace_gate_skip_zero on a zero-distance activity. -/
theorem pace_gate_skip_zero_witness :
    isValidPace "Run" zAct = true ∧
    zAct.moving_time ≤ (recordsFold [zAct] "Run").max_time.value :=
  ⟨pace_gate_skip_zero.1 "Run" zAct (Or.inl rfl),
   (pace_gate_skip_zero.2 [zAct] "Run" (recordsFold [zAct] "Run") rfl zAct
     (List.mem_singleton_self _) rfl (Or.inl rfl)).1⟩

/-- C7: a best-time-over-distance record for target t uses the
estimate t over actual distance times moving time, is only taken from
an activity whose actual distance is at least t with an estimate at or
above the minimal plausible time for t, and is the minimum over the
accepted candidates. -/
theorem best_time_targets (acts : List Activity) (s : String) (r : SportRecords) (t : ℚ)
    (h : calculate_records acts s = Option.some r) :
    (∀ v, (r.best_time t).value = Option.some v →
      ∃ a ∈ acts, (r.best_time t).activity = Option.some a ∧ sportOf a = s ∧
        t ∈ distance_targets s ∧ t ≤ a.distance ∧
        v = (t / a.distance) * a.moving_time ∧ min_times t ≤ v) ∧
    (∀ b ∈ acts, sportOf b = s → isValidPace s b = true → 0 < b.distance →
      0 < b.moving_time → t ∈ distance_targets s → t ≤ b.distance →
      min_times t ≤ (t / b.distance) * b.moving_time →
      ∃ v, (r.best_time t).value = Option.some v ∧
        v ≤ (t / b.distance) * b.moving_time) := by
  have hr := calculate_records_eq h
  subst hr
  unfold recordsFold
  constructor
  · intro v hv
    rcases foldl_best_time s t (acts.filter fun a => decide (sportOf a = s)) initRecords
      with h1 | ⟨a, ha, h1, _, hts, _, _, htd, hmin⟩
    · rw [h1] at hv
      simp [initRecords] at hv
    · rcases List.mem_filter.mp ha with ⟨hamem, hasp⟩
      have hveq : v = (t / a.distance) * a.moving_time := by
        rw [h1] at hv
        simpa using hv.symm
      refine ⟨a, hamem, ?_, ?_, hts, htd, hveq, ?_⟩
      · rw [h1]
      · exact of_decide_eq_true hasp
      · rw [hveq]
        exact hmin
  · intro b hb hbs hv hd hm hts htd hmin
    exact foldl_best_time_le s t _ initRecords b
      (List.mem_filter.mpr ⟨hb, by simp [hbs]⟩) hv hts hd hm htd hmin

/-- Run of 5000 m in 1500 s, a plausible candidate for the 5000 m
best-time record, for the C7 witness. -/
def runAct : Activity :=
  { baseAct with
    id := IdVal.int 11
    name := "parkrun"
    start_date := "2024-04-01"
    sport_type := Option.some "Run"
    distance := 5000
    moving_time := 1500 }

lemma runAct_valid : isValidPace "Run" runAct = true := by
  unfold isValidPace calculate_pace_seconds
  rw [show runAct.distance = (5000 : ℚ) from rfl,
    show runAct.moving_time = (1500 : ℚ) from rfl,
    show max_pace_limit "Run" = 1200 from rfl]
  norm_num

lemma runAct_min_time : min_times 5000 ≤ (5000 / runAct.distance) * runAct.moving_time := by
  rw [show runAct.distance = (5000 : ℚ) from rfl,
    show runAct.moving_time = (1500 : ℚ) from rfl,
    show min_times 5000 = 720 from rfl]
  norm_num

/-- Witness for best_time_targets at the 5000 m target. -/
theorem best_time_targets_witness :
    ∃ v, ((recordsFold [runAct] "Run").best_time 5000).value = Option.some v ∧
      v ≤ (5000 / runAct.distance) * runAct.moving_time :=
  (best_time_targets [runAct] "Run" (recordsFold [runAct] "Run") 5000 rfl).2 runAct
    (List.mem_singleton_self _) rfl runAct_valid (by decide) (by decide) (by decide)
    (by decide) runAct_min_time

lemma activity_factor_pos (s : String) : 0 < activity_factor s := by
  unfold activity_factor
  split <;> norm_num

lemma estimated_max_hr_pos {avg : ℚ} (h : 0 ≤ avg) (mhr umhr : Option ℚ) :
    0 < estimated_max_hr avg mhr umhr := by
  unfold estimated_max_hr
  by_cases h1 : qTruthy umhr = true ∧ 0 < umhr.getD 0
  · rw [if_pos h1]
    exact h1.2
  · rw [if_neg h1]
    by_cases h2 : qTruthy mhr = true ∧ avg < mhr.getD 0
    · rw [if_pos h2]
      exact lt_of_le_of_lt h h2.2
    · rw [if_neg h2]
      norm_num

lemma pyTruncR_nonneg {x : ℝ} (h : 0 ≤ x) : 0 ≤ pyTruncR x := by
  unfold pyTruncR
  rw [if_pos h]
  exact Int.floor_nonneg.mpr h

/-- C3: calculate_relative_effort returns 0 when the average heart rate
or the moving time is zero; otherwise the reference maximum heart rate
is the user value when positive, else the activity maximum when above
the average, else 185, and the result is the truncation of
moving-time-minutes times intensity times one plus intensity to the
power three halves times the sport factor times 2.5, with intensity the
capped ratio of average to reference; on non-negative inputs the result
is a non-negative integer. -/
theorem relative_effort_spec (moving_time average_heartrate : ℚ) (max_heartrate : Option ℚ)
    (sport_type : String) (user_max_hr : Option ℚ)
    (hmt : 0 ≤ moving_time) (havg : 0 ≤ average_heartrate) :
    (average_heartrate = 0 ∨ moving_time = 0 →
      calculate_relative_effort moving_time average_heartrate max_heartrate sport_type
        user_max_hr = 0) ∧
    (∀ u, user_max_hr = Option.some u → 0 < u →
      estimated_max_hr average_heartrate max_heartrate user_max_hr = u) ∧
    ((¬ ∃ u, user_max_hr = Option.some u ∧ 0 < u) → ∀ m, max_heartrate = Option.some m →
      average_heartrate < m →
      estimated_max_hr average_heartrate max_heartrate user_max_hr = m) ∧
    ((¬ ∃ u, user_max_hr = Option.some u ∧ 0 < u) →
      (¬ ∃ m, max_heartrate = Option.some m ∧ average_heartrate < m) →
      estimated_max_hr average_heartrate max_heartrate user_max_hr = 185) ∧
    (average_heartrate ≠ 0 → moving_time ≠ 0 →
      calculate_relative_effort moving_time average_heartrate max_heartrate sport_type
          user_max_hr =
        pyTruncR (((moving_time : ℝ) / 60) *
          min ((average_heartrate : ℝ) /
            ((estimated_max_hr average_heartrate max_heartrate user_max_hr : ℚ) : ℝ)) 1 *
          (1 + (min ((average_heartrate : ℝ) /
            ((estimated_max_hr average_heartrate max_heartrate user_max_hr : ℚ) : ℝ)) 1) ^
              ((3 : ℝ) / 2)) *
          ((activity_factor sport_type : ℚ) : ℝ) * (5 / 2))) ∧
    0 ≤ calculate_relative_effort moving_time average_heartrate max_heartrate sport_type
      user_max_hr := by
  refine ⟨?_, ?_, ?_, ?_, ?_, ?_⟩
  · intro hz
    unfold calculate_relative_effort
    rw [if_pos hz]
  · intro u hu hupos
    subst hu
    have ht : qTruthy (Option.some u) = true := by
      simp only [qTruthy, bne_iff_ne, ne_eq]
      exact hupos.ne'
    unfold estimated_max_hr
    rw [if_pos ⟨ht, by simpa using hupos⟩]
    simp
  · intro hnu m hm ham
    subst hm
    have hc1 : ¬ (qTruthy user_max_hr = true ∧ 0 < user_max_hr.getD 0) := by
      rintro ⟨ht, hpos⟩
      cases user_max_hr with
      | none => exact absurd ht (by simp [qTruthy])
      | some u => exact hnu ⟨u, rfl, by simpa using hpos⟩
    have hm0 : 0 < m := lt_of_le_of_lt havg ham
    have ht : qTruthy (Option.some m) = true := by
      simp only [qTruthy, bne_iff_ne, ne_eq]
      exact hm0.ne'
    unfold estimated_max_hr
    rw [if_neg hc1, if_pos ⟨ht, by simpa using ham⟩]
    simp
  · intro hnu hnm
    have hc1 : ¬ (qTruthy user_max_hr = true ∧ 0 < user_max_hr.getD 0) := by
      rintro ⟨ht, hpos⟩
      cases user_max_hr with
      | none => exact absurd ht (by simp [qTruthy])
      | some u => exact hnu ⟨u, rfl, by simpa using hpos⟩
    have hc2 : ¬ (qTruthy max_heartrate = true ∧ average_heartrate < max_heartrate.getD 0) := by
      rintro ⟨ht, hlt⟩
      cases max_heartrate with
      | none => exact absurd ht (by simp [qTruthy])
      | some m => exact hnm ⟨m, rfl, by simpa using hlt⟩
    unfold estimated_max_hr
    rw [if_neg hc1, if_neg hc2]
  · intro ha hm
    unfold calculate_relative_effort
    rw [if_neg fun h => h.elim ha hm]
  · by_cases hz : average_heartrate = 0 ∨ moving_time = 0
    · unfold calculate_relative_effort
      rw [if_pos hz]
    · unfold calculate_relative_effort
      rw [if_neg hz]
      apply pyTruncR_nonneg
      have hemax := estimated_max_hr_pos havg max_heartrate user_max_hr
      have hI : (0 : ℝ) ≤ min ((average_heartrate : ℝ) /
          ((estimated_max_hr average_heartrate max_heartrate user_max_hr : ℚ) : ℝ)) 1 := by
        refine le_min (div_nonneg ?_ ?_) zero_le_one
        · exact_mod_cast havg
        · exact_mod_cast hemax.le
      have h1 : (0 : ℝ) ≤ (moving_time : ℝ) / 60 := by
        apply div_nonneg _ (by norm_num)
        exact_mod_cast hmt
      have h2 : (0 : ℝ) ≤ 1 + (min ((average_heartrate : ℝ) /
          ((estimated_max_hr average_heartrate max_heartrate user_max_hr : ℚ) : ℝ)) 1) ^
            ((3 : ℝ) / 2) := by
        have hr := Real.rpow_nonneg hI ((3 : ℝ) / 2)
        linarith
      have h3 : (0 : ℝ) ≤ ((activity_factor sport_type : ℚ) : ℝ) := by
        exact_mod_cast (activity_factor_pos sport_type).le
      exact mul_nonneg (mul_nonneg (mul_nonneg (mul_nonneg h1 hI) h2) h3) (by norm_num)

/-- Witness for relative_effort_spec at the example of the spec and at
a zero average heart rate. -/
theorem relative_effort_spec_witness :
    0 ≤ calculate_relative_effort 600 150 (Option.some 180) "Run" (Option.some 185) ∧
    calculate_relative_effort 600 0 (Option.some 180) "Run" (Option.some 185) = 0 :=
  ⟨(relative_effort_spec 600 150 (Option.some 180) "Run" (Option.some 185) (by decide)
      (by decide)).2.2.2.2.2,
   (relative_effort_spec 600 0 (Option.some 180) "Run" (Option.some 185) (by decide)
      (by decide)).1 (Or.inl rfl)⟩

lemma foldl_max_le {c : ℚ} : ∀ (xs : List ℚ) (x : ℚ), x ≤ c → (∀ y ∈ xs, y ≤ c) →
    xs.foldl max x ≤ c := by
  intro xs
  induction xs with
  | nil => intro x hx _; exact hx
  | cons y ys ih =>
    intro x hx hy
    rw [List.foldl_cons]
    exact ih (max x y) (max_le hx (hy y (List.mem_cons_self _ _)))
      fun z hz => hy z (List.mem_cons_of_mem _ hz)

lemma listMaxD_le {l : List ℚ} {c : ℚ} (h0 : 0 ≤ c) (h : ∀ x ∈ l, x ≤ c) :
    listMaxD l ≤ c := by
  cases l with
  | nil => exact h0
  | cons x xs =>
    exact foldl_max_le xs x (h x (List.mem_cons_self _ _))
      fun y hy => h y (List.mem_cons_of_mem _ hy)

lemma foldl_max_mem : ∀ (xs : List ℚ) (x : ℚ), xs.foldl max x ∈ x :: xs := by
  intro xs
  induction xs with
  | nil => intro x; exact List.mem_singleton_self x
  | cons y ys ih =>
    intro x
    rw [List.foldl_cons]
    rcases List.mem_cons.mp (ih (max x y)) with h1 | h1
    · rw [h1]
      rcases max_choice x y with h2 | h2
      · rw [h2]
        exact List.mem_cons_self _ _
      · rw [h2]
        exact List.mem_cons_of_mem _ (List.mem_cons_self _ _)
    · exact List.mem_cons_of_mem _ (List.mem_cons_of_mem _ h1)

lemma listMaxD_mem {l : List ℚ} (h : l ≠ []) : listMaxD l ∈ l := by
  cases l with
  | nil => exact absurd rfl h
  | cons x xs => exact foldl_max_mem xs x

lemma foldl_max_le_self : ∀ (xs : List ℚ) (x : ℚ), x ≤ xs.foldl max x := by
  intro xs
  induction xs with
  | nil => intro x; exact le_refl x
  | cons y ys ih =>
    intro x
    rw [List.foldl_cons]
    exact le_trans (le_max_left x y) (ih (max x y))

lemma foldl_max_ge_mem : ∀ (xs : List ℚ) (x z : ℚ), z ∈ xs → z ≤ xs.foldl max x := by
  intro xs
  induction xs with
  | nil => intro x z hz; cases hz
  | cons y ys ih =>
    intro x z hz
    rw [List.foldl_cons]
    rcases List.mem_cons.mp hz with rfl | hz'
    · exact le_trans (le_max_right x z) (foldl_max_le_self ys (max x z))
    · exact ih (max x y) z hz'

lemma listMaxD_ge {l : List ℚ} {z : ℚ} (hz : z ∈ l) : z ≤ listMaxD l := by
  cases l with
  | nil => cases hz
  | cons x xs =>
    rcases List.mem_cons.mp hz with rfl | hz'
    · exact foldl_max_le_self xs z
    · exact foldl_max_ge_mem xs x z hz'

/-- Recent activity with maximum heart rate 165, for the C4 example. -/
def hrActA : Activity :=
  { baseAct with id := IdVal.int 21, start_date := "2026-01-05", max_heartrate := 165 }

/-- Recent activity with maximum heart rate 170, for the C4 example. -/
def hrActB : Activity :=
  { baseAct with id := IdVal.int 22, start_date := "2026-01-12", max_heartrate := 170 }

/-- Recent activity with maximum heart rate 172, for the C4 example. -/
def hrActC : Activity :=
  { baseAct with id := IdVal.int 23, start_date := "2026-01-19", max_heartrate := 172 }

/-- Recent activity with the outlier maximum heart rate 255, for the C4
example. -/
def hrActD : Activity :=
  { baseAct with id := IdVal.int 24, start_date := "2026-01-26", max_heartrate := 255 }

/-- Example history of the spec: recent observations 165, 170, 172 and
255. -/
def hrExample : List Activity := [hrActA, hrActB, hrActC, hrActD]

/-- C4 amended: on the example observations 165, 170, 172, 255 the
detected ceiling is 172, never 255; when no activity at all has
heart-rate data the ceiling defaults to 180; when the top-10 recent
values contain a value at most 200 while their maximum exceeds 200,
the ceiling is exactly the highest top-10 value at most 200 (a member
of that subset bounding the whole subset, hence itself at most 200);
when every top-10 value exceeds 200 the ceiling is the entry at the
95th-percentile index of the ascending-sorted recent values, which can
still be the single highest value, see the counterexample; and the
full history is consulted only when no recent activity has heart-rate
data: with non-empty recent observations the result is a function of
those observations alone. -/
theorem max_hr_detection_amended :
    detect_user_max_hr "2025-10-01" hrExample = 172 ∧
    (∀ (cutoff : String) (acts : List Activity),
      (∀ a ∈ acts, ¬ 0 < a.max_heartrate) → detect_user_max_hr cutoff acts = 180) ∧
    (∀ (cutoff : String) (acts : List Activity),
      recentHRs cutoff acts ≠ [] →
      200 < listMaxD ((sortQDesc (recentHRs cutoff acts)).take 10) →
      ((sortQDesc (recentHRs cutoff acts)).take 10).filter (fun h => decide (h ≤ 200)) ≠ [] →
      detect_user_max_hr cutoff acts ∈
        ((sortQDesc (recentHRs cutoff acts)).take 10).filter (fun h => decide (h ≤ 200)) ∧
      (∀ x ∈ ((sortQDesc (recentHRs cutoff acts)).take 10).filter
          (fun h => decide (h ≤ 200)),
        x ≤ detect_user_max_hr cutoff acts) ∧
      detect_user_max_hr cutoff acts ≤ 200) ∧
    (∀ (cutoff : String) (acts : List Activity),
      recentHRs cutoff acts ≠ [] →
      200 < listMaxD ((sortQDesc (recentHRs cutoff acts)).take 10) →
      ((sortQDesc (recentHRs cutoff acts)).take 10).filter (fun h => decide (h ≤ 200)) = [] →
      detect_user_max_hr cutoff acts =
        (sortQAsc (recentHRs cutoff acts)).getD (pyIdx95 (recentHRs cutoff acts).length) 0) ∧
    (∀ (cutoff : String) (acts acts' : List Activity),
      recentHRs cutoff acts = recentHRs cutoff acts' → recentHRs cutoff acts ≠ [] →
      detect_user_max_hr cutoff acts = detect_user_max_hr cutoff acts') := by
  refine ⟨by decide, ?_, ?_, ?_, ?_⟩
  · intro cutoff acts h
    have hrec : recentHRs cutoff acts = [] := by
      unfold recentHRs
      rw [List.map_eq_nil_iff]
      apply List.filter_eq_nil_iff.mpr
      intro a ha
      simp only [decide_eq_true_eq]
      exact h a (List.mem_filter.mp ha).1
    have hall : allHRs acts = [] := by
      unfold allHRs
      rw [List.map_eq_nil_iff]
      apply List.filter_eq_nil_iff.mpr
      intro a ha
      simp only [decide_eq_true_eq]
      exact h a ha
    unfold detect_user_max_hr
    rw [hrec, hall]
    simp
  · intro cutoff acts hne hmax hreal
    have hdet : detect_user_max_hr cutoff acts =
        listMaxD (((sortQDesc (recentHRs cutoff acts)).take 10).filter
          (fun h => decide (h ≤ 200))) := by
      unfold detect_user_max_hr
      rw [if_pos hne, if_pos hmax, if_neg hreal]
    refine ⟨?_, ?_, ?_⟩
    · rw [hdet]
      exact listMaxD_mem hreal
    · intro x hx
      rw [hdet]
      exact listMaxD_ge hx
    · rw [hdet]
      apply listMaxD_le (by norm_num)
      intro x hx
      exact of_decide_eq_true (List.mem_filter.mp hx).2
  · intro cutoff acts hne hmax hreal
    unfold detect_user_max_hr
    rw [if_pos hne, if_pos hmax, if_pos hreal]
  · intro cutoff acts acts' h hne
    unfold detect_user_max_hr
    rw [if_pos hne, if_pos (show recentHRs cutoff acts' ≠ [] by rw [← h]; exact hne), h]

/-- Recent activity whose only heart-rate observation is the outlier
255, for the C4 counterexample. -/
def hrCexAct : Activity :=
  { baseAct with id := IdVal.int 25, start_date := "2026-02-01", max_heartrate := 255 }

/-- C4 counterexample: with a single recent observation of 255, every
top-10 value exceeds 200, and the 95th-percentile fallback returns 255
itself, so the single highest value above 200 bpm is returned as the
ceiling, contradicting the claim. -/
theorem max_hr_detection_cex :
    detect_user_max_hr "2025-10-01" [hrCexAct] = 255 ∧ (200 : ℚ) < 255 := by
  exact ⟨by decide, by norm_num⟩

/-- Witness for max_hr_detection_amended at the example history, using
the mixed-case characterization. -/
theorem max_hr_detection_amended_witness :
    detect_user_max_hr "2025-10-01" hrExample ∈
      ((sortQDesc (recentHRs "2025-10-01" hrExample)).take 10).filter
        (fun h => decide (h ≤ 200)) ∧
    detect_user_max_hr "2025-10-01" hrExample ≤ 200 :=
  ⟨(max_hr_detection_amended.2.2.1 "2025-10-01" hrExample (by decide) (by decide)
      (by decide)).1,
   (max_hr_detection_amended.2.2.1 "2025-10-01" hrExample (by decide) (by decide)
      (by decide)).2.2⟩

end Strava
